import Mathlib

/-!
# Verification of the gdl download engine against its specification

Shallow embedding of the pure decision logic of the `gdl` repository
(a GitHub subtree downloader written in Rust) together with proofs of the
spec claims about it.  Each definition mirrors one Rust function; the Rust
file and line ranges are named in the doc comments.  External collaborators
(the `reqwest` HTTP client, `tokio`, `serde_json`, the `sha1`/`sha2` crates,
the filesystem and the clock) are modelled as explicit parameters: the HTTP
response observed, the parse state of an on-disk file, the current epoch
second, an abstract hash function.

Conventions:
* Machine integers (`u64`) are `Nat` with explicit wrap-around where the
  Rust code can wrap (release-mode `u64` subtraction).
* Byte strings (`Vec<u8>`) are `List Nat`.
* Durations are whole seconds (`Nat`); the Rust code only ever constructs
  whole-second durations from these headers.
-/

namespace Gdl

/-- `2^64`, the modulus of Rust `u64` arithmetic. -/
def U64 : Nat := 2 ^ 64

/-- Wrapping `u64` subtraction `a - b` (release-mode Rust semantics),
for `a b < 2^64`. -/
def u64sub (a b : Nat) : Nat := (a + (U64 - b % U64)) % U64

/-- Decimal digit value of a character, if it is one. -/
def digitVal? (c : Char) : Option Nat :=
  let n := c.toNat
  if 48 ≤ n ∧ n ≤ 57 then some (n - 48) else none

/-- Accumulate a decimal number over a character list; `none` on the
first non-digit. -/
def parseDigitsAux : List Char → Nat → Option Nat
  | [], acc => some acc
  | c :: rest, acc =>
    match digitVal? c with
    | some d => parseDigitsAux rest (acc * 10 + d)
    | none => none

/-- Decimal parse of a non-empty all-digits string. -/
def rustParseNat? (s : String) : Option Nat :=
  match s.data with
  | [] => none
  | l => parseDigitsAux l 0

/-- Rust `str::parse::<u64>` on a header value: a non-empty digit string
whose value fits in `u64`.  (Rust also accepts a leading `+`, which never
occurs in these headers; we model the plain-digits case.) -/
def parseU64 (s : String) : Option Nat :=
  (rustParseNat? s).filter (fun n => n < U64)

/-- `s.ends_with('/')`: the last character is `'/'`. -/
def endsWithSlash (s : String) : Bool :=
  s.data.getLast? = some '/'

/-! ## Rate-limit backoff (src/rate_limit.rs) -/

namespace RateLimit

/-- The response headers consulted by `rate_limit.rs`.  Each field is the
raw string value of the header if present (`HeaderMap::get` + `to_str`). -/
structure Headers where
  retry_after : Option String
  x_ratelimit_limit : Option String
  x_ratelimit_remaining : Option String
  x_ratelimit_used : Option String
  x_ratelimit_reset : Option String
deriving Repr, DecidableEq

/-- `header_value_to_u64` (rate_limit.rs lines 143-148): get the header,
convert to str, parse as `u64`; any failure gives `None`. -/
def header_value_to_u64 (value : Option String) : Option Nat :=
  value.bind parseU64

/-- `parse_retry_after` (rate_limit.rs lines 150-153): the `Retry-After`
header parsed as whole seconds. -/
def parse_retry_after (h : Headers) : Option Nat :=
  h.retry_after.bind parseU64

/-- The tail of `backoff_duration` (rate_limit.rs lines 126-139): honor
`Retry-After` if present, else use `x-ratelimit-reset` when it lies
strictly in the future (`duration_since` succeeds and is positive), adding
one second.  `now` is `SystemTime::now()` in epoch seconds. -/
def backoff_tail (h : Headers) (now : Nat) : Option Nat :=
  match parse_retry_after h with
  | some d => some d
  | none =>
    match header_value_to_u64 h.x_ratelimit_reset with
    | some reset => if now < reset then some (reset - now + 1) else none
    | none => none

/-- `RateLimitTracker::backoff_duration` (rate_limit.rs lines 106-140).
Status `429`: `Retry-After` if present, else fall through to the tail.
Status `403`: non-retryable (`none`) when the remaining header is missing
or positive, else the tail.  Any other status: `none`. -/
def backoff_duration (status : Nat) (h : Headers) (now : Nat) : Option Nat :=
  if status = 429 then
    match parse_retry_after h with
    | some d => some d
    | none => backoff_tail h now
  else if status = 403 then
    match header_value_to_u64 h.x_ratelimit_remaining with
    | some remaining => if remaining > 0 then none else backoff_tail h now
    | none => none
  else
    none

/-- Headers with every tracked field absent. -/
def Headers.empty : Headers :=
  { retry_after := none, x_ratelimit_limit := none, x_ratelimit_remaining := none
    x_ratelimit_used := none, x_ratelimit_reset := none }

end RateLimit

/-! ## Response cache (src/cache.rs) -/

namespace Cache

/-- `CachedResponse` (cache.rs lines 14-21).  The body is a byte vector. -/
structure CachedResponse where
  url : String
  body : List Nat
  etag : Option String
  last_modified : Option String
  timestamp : Nat
deriving Repr, DecidableEq

/-- The observable state of the on-disk cache file for one URL key:
the file may be missing (`File::open` gives `NotFound`), unreadable
(`File::open` gives another I/O error), present but not valid JSON for a
`CachedResponse`, or present and parsed. -/
inductive CacheFileState where
  | missing : CacheFileState
  | unreadable : CacheFileState
  | corrupt : CacheFileState
  | entry (c : CachedResponse) : CacheFileState
deriving Repr, DecidableEq

/-- `load_cached_response` (cache.rs lines 84-129): a missing file and an
unparsable file give `Ok(None)`; an I/O error other than `NotFound` is an
error; a parsed entry is returned iff its age `now - timestamp` (wrapping
`u64` subtraction) is at most `ttl`. -/
def load_cached_response (disk : CacheFileState) (now ttl : Nat) :
    Except String (Option CachedResponse) :=
  match disk with
  | .missing => .ok none
  | .unreadable => .error "failed to open cached response file"
  | .corrupt => .ok none
  | .entry c =>
    if u64sub now c.timestamp > ttl then .ok none else .ok (some c)

end Cache

/-! ## Cached HTTP wrapper (src/http.rs) -/

namespace Http

/-- The parts of a successful `reqwest::Response` that
`send_github_request_cached` consumes. -/
structure HttpResponse where
  body : List Nat
  etag : Option String
  last_modified : Option String
deriving Repr, DecidableEq

/-- Result of one call to the cached wrapper: the returned body, whether a
network request was issued, and the cache entry written (if any). -/
structure CachedFetchResult where
  body : List Nat
  network_request_issued : Bool
  cache_write : Option Cache.CachedResponse
deriving Repr, DecidableEq

/-- `DEFAULT_CACHE_TTL_SECS` (http.rs line 13). -/
def DEFAULT_CACHE_TTL_SECS : Nat := 60 * 60

/-- `send_github_request_cached` (http.rs lines 15-89).  With caching
enabled, consult the cache first (`load_cached_response(..).ok().flatten()`);
a hit returns the cached body with no network request.  Otherwise issue the
request (`net` is the successful response observed) and write a
cache entry only when caching is enabled and the response carries an `ETag`
or `Last-Modified` validator.  `disk` is the parse state of the cache file
for this URL's key and `now` the current epoch second. -/
def send_github_request_cached (url : String) (no_cache : Bool)
    (disk : Cache.CacheFileState) (now : Nat) (net : HttpResponse) :
    CachedFetchResult :=
  let cached : Option Cache.CachedResponse :=
    if ¬no_cache then
      (Cache.load_cached_response disk now DEFAULT_CACHE_TTL_SECS).toOption.join
    else
      none
  match cached with
  | some c =>
    { body := c.body, network_request_issued := false, cache_write := none }
  | none =>
    let write : Option Cache.CachedResponse :=
      if ¬no_cache ∧ (net.etag.isSome ∨ net.last_modified.isSome) then
        some { url := url, body := net.body, etag := net.etag
               last_modified := net.last_modified, timestamp := now }
      else
        none
    { body := net.body, network_request_issued := true, cache_write := write }

end Http

/-! ## Path sanitizer and layout planner (src/paths.rs)

A Rust path string is represented by its list of `'/'`-separated raw
segments (`String.splitOn "/"` both ways): `"dir/file.txt" ↦
["dir", "file.txt"]`, the empty path `"" ↦ [""]`, an absolute path
`"/a" ↦ ["", "a"]`.  This keeps `std::path` component iteration, which the
Rust code relies on, fully executable and provable. -/

namespace Paths

/-- `std::path::Component` on a Unix host.  `windowsDrive` stands for the
host-specific `Component::Prefix` of other hosts; Unix path parsing never
produces it, but the sanitizer's catch-all arm covers it. -/
inductive PathComponent where
  | rootDir : PathComponent
  | curDir : PathComponent
  | parentDir : PathComponent
  | windowsDrive (s : String) : PathComponent
  | normal (s : String) : PathComponent
deriving Repr, DecidableEq

def PathComponent.isNormal : PathComponent → Bool
  | .normal _ => true
  | _ => false

/-- Body of `Components`: convert the non-empty segments of a path.
`first` records whether the next segment is the path's first component of a
relative path; only there is `"."` kept (as `CurDir`), matching Rust's
`include_cur_dir` rule.  Later `"."` segments are normalized away. -/
def convBody : Bool → List String → List PathComponent
  | _, [] => []
  | first, s :: rest =>
    if s = "." then
      (if first then [PathComponent.curDir] else []) ++ convBody false rest
    else if s = ".." then
      PathComponent.parentDir :: convBody false rest
    else
      PathComponent.normal s :: convBody false rest

/-- `Path::components()` of the path with the given segment list (Unix
rules): a leading empty segment means the string began with `'/'`
(`RootDir`); empty segments (repeated separators) disappear; `".."` is
`ParentDir`; `"."` survives only as the first component of a relative
path; everything else is `Normal`. -/
def segComponents (segs : List String) : List PathComponent :=
  if segs = [] ∨ segs = [""] then []
  else
    let isAbs := segs.head? = some ""
    let body := segs.filter (fun s => s ≠ "")
    (if isAbs then [PathComponent.rootDir] else []) ++ convBody (¬isAbs) body

def componentStr : PathComponent → String
  | .rootDir => ""
  | .curDir => "."
  | .parentDir => ".."
  | .windowsDrive s => s
  | .normal s => s

/-- Render a component list back to a path (as its segment list), the way
`Components::as_path` does: `[] ↦ ""`, a lone `RootDir ↦ "/"`, a leading
`RootDir` becomes a leading empty segment. -/
def renderComponents : List PathComponent → List String
  | [] => [""]
  | [PathComponent.rootDir] => ["", ""]
  | PathComponent.rootDir :: rest => "" :: rest.map componentStr
  | cs => cs.map componentStr

/-- `s.is_empty()` for the path string encoded by `p`. -/
def isEmptyPath (p : List String) : Bool := p = [] || p = [""]

/-- `ContentType` (src/github/types.rs). -/
inductive ContentType where
  | file : ContentType
  | dir : ContentType
  | symlink : ContentType
  | submodule : ContentType
  | other : ContentType
deriving Repr, DecidableEq, BEq

/-- The fields of `GitHubContent` that src/paths.rs reads.  `name` and
`path` are path strings in segment representation. -/
structure ContentItem where
  name : List String
  path : List String
  content_type : ContentType
deriving Repr, DecidableEq

/-- `relative_path` lines 86-99: the component list handed to the
sanitizing loop.  Strip `base_path` as a component prefix of the item's
forge path (keeping the whole path when stripping fails), and replace an
empty result with the item's `name`. -/
def rebuilt_relative (base_path : List String) (item : ContentItem) :
    List PathComponent :=
  let fullC := segComponents item.path
  let baseC := segComponents base_path
  let relC :=
    if isEmptyPath base_path then fullC
    else if baseC.isPrefixOf fullC then fullC.drop baseC.length
    else fullC
  if relC = [] then segComponents item.name else relC

/-- The `for component in relative.components()` loop of `relative_path`
(lines 101-113): keep `Normal`, elide `CurDir`, reject anything else. -/
def sanitizeComponents : List PathComponent → Except String (List String)
  | [] => .ok []
  | PathComponent.normal s :: rest =>
    (sanitizeComponents rest).map (fun l => s :: l)
  | PathComponent.curDir :: rest => sanitizeComponents rest
  | _ :: _ => .error "refusing to write outside the output directory"

/-- `relative_path` (paths.rs lines 86-120).  After the sanitizing loop,
an empty result is replaced by pushing the raw `item.name`
(lines 115-117).  Returns the segment list of the produced `PathBuf`. -/
def relative_path (base_path : List String) (item : ContentItem) :
    Except String (List String) :=
  match sanitizeComponents (rebuilt_relative base_path item) with
  | .error e => .error e
  | .ok [] => .ok item.name
  | .ok parts => .ok parts

/-- `Path::parent` (used at paths.rs line 29): drop the last component;
`None` when there is no component or the path ends in a root/drive. -/
def rustParent (p : List String) : Option (List String) :=
  let cs := segComponents p
  match cs.getLast? with
  | none => none
  | some PathComponent.rootDir => none
  | some (PathComponent.windowsDrive _) => none
  | some _ => some (renderComponents cs.dropLast)

/-- `Path::file_name` (used at paths.rs line 45): the last component when
it is `Normal`. -/
def rustFileName (p : List String) : Option String :=
  match (segComponents p).getLast? with
  | some (PathComponent.normal s) => some s
  | _ => none

/-- `str::trim_matches('/')` in segment representation: a path string's
leading and trailing `'/'` runs are exactly its leading and trailing empty
segments. -/
def trimSlashes (p : List String) : List String :=
  (p.dropWhile (fun s => s = "")).rdropWhile (fun s => s = "")

/-- `normalize_base` (paths.rs lines 63-69): the identity, mapping an
empty base to `PathBuf::new()` (also empty). -/
def normalize_base (base : List String) : List String :=
  if isEmptyPath base then [""] else base

/-- `compute_base_and_default_output` (paths.rs lines 20-52).  Takes the
request's `path` and `has_trailing_slash` fields and returns
`(base_path, default_output_dir)` in segment representation. -/
def compute_base_and_default_output (request_path : List String)
    (has_trailing_slash : Bool) (treat_as_single_file : Bool)
    (file_path_override : Option (List String)) : List String × List String :=
  if treat_as_single_file then
    let path_str := file_path_override.getD request_path
    let base := (rustParent path_str).getD [""]
    (normalize_base base, ["."])
  else
    let trimmed := trimSlashes request_path
    let base := if trimmed = [] then [""] else trimmed
    let default_output :=
      if has_trailing_slash || isEmptyPath base then ["."]
      else
        match rustFileName base with
        | some nm => [nm]
        | none => ["."]
    (normalize_base base, default_output)

/-- The single-file test of `determine_paths` (paths.rs line 55). -/
def isSingleFileListing : List ContentItem → Bool
  | [c] => c.content_type == ContentType.file
  | _ => false

/-- `determine_paths` (paths.rs lines 54-61). -/
def determine_paths (request_path : List String) (has_trailing_slash : Bool)
    (contents : List ContentItem) : List String × List String :=
  compute_base_and_default_output request_path has_trailing_slash
    (isSingleFileListing contents) (contents.head?.map (fun c => c.path))

end Paths

/-! ## URL parser (src/github/api.rs) -/

namespace Api

/-- `RequestKind` (src/types.rs). -/
inductive RequestKind where
  | tree : RequestKind
  | blob : RequestKind
deriving Repr, DecidableEq

/-- `RequestInfo` (src/types.rs). -/
structure RequestInfo where
  owner : String
  repo : String
  branch : String
  path : String
  has_trailing_slash : Bool
  kind : RequestKind
deriving Repr, DecidableEq

/-- `str::trim_matches(c)`: remove every leading and trailing occurrence
of `c`. -/
def trimChar (c : Char) (s : String) : String :=
  String.mk (((s.toList.dropWhile (fun x => x = c)).reverse.dropWhile
    (fun x => x = c)).reverse)

/-- `parse_github_url` (api.rs lines 179-220).  `url::Url::parse` and
`path_segments()` belong to the external `url` crate; `segments` is the
segment list that call yields for `rawUrl` (the URL path split on `'/'`
after the leading slash).  Fail unless there are at least five segments
and the third (`segments[2]`) is `tree` or `blob`; otherwise assemble the
fields, slash-trimming the joined tail as the path and promoting an
empty-path `Blob` to `Tree`. -/
def parse_github_url (rawUrl : String) (segments : List String) :
    Except String RequestInfo :=
  let has_trailing_slash := endsWithSlash rawUrl
  if segments.length < 5 ∨
      (segments.getD 2 "" ≠ "tree" ∧ segments.getD 2 "" ≠ "blob") then
    .error "URL must include /tree/ or /blob/ with a branch and path component"
  else
    let kind0 := if segments.getD 2 "" = "tree" then RequestKind.tree
      else RequestKind.blob
    let path := trimChar '/' (String.intercalate "/" (segments.drop 4))
    let kind := if path = "" ∧ kind0 = RequestKind.blob then RequestKind.tree
      else kind0
    .ok { owner := segments.getD 0 "", repo := segments.getD 1 ""
          branch := segments.getD 3 "", path := path
          has_trailing_slash := has_trailing_slash, kind := kind }

end Api

/-! ## Strategy selector (src/download/manager.rs, src/download/validation.rs) -/

namespace Manager

/-- `DownloadStrategy` (src/cli.rs), with the `Zip` variant that
manager.rs and validation.rs match on. -/
inductive DownloadStrategy where
  | api : DownloadStrategy
  | git : DownloadStrategy
  | zip : DownloadStrategy
  | auto : DownloadStrategy
deriving Repr, DecidableEq

/-- An `anyhow::Error` over a type `E` of pipeline errors: a root cause
wrapped in zero or more context messages (`err.context(msg)` adds a
layer). -/
inductive AnyhowError (E : Type) where
  | base (e : E) : AnyhowError E
  | withContext (msg : String) (inner : AnyhowError E) : AnyhowError E
deriving Repr, DecidableEq

/-- The innermost error of an `anyhow` chain (`err.root_cause()`). -/
def AnyhowError.rootCause {E : Type} : AnyhowError E → E
  | .base e => e
  | .withContext _ inner => inner.rootCause

/-- `git_available_fallback_order` (validation.rs lines 76-82). -/
def git_available_fallback_order : List DownloadStrategy :=
  [DownloadStrategy.git, DownloadStrategy.zip, DownloadStrategy.api]

/-- `no_git_whole_repo_fallback_order` (validation.rs lines 88-90). -/
def no_git_whole_repo_fallback_order : List DownloadStrategy :=
  [DownloadStrategy.zip, DownloadStrategy.api]

/-- `no_git_specific_path_fallback_order` (validation.rs lines 96-98). -/
def no_git_specific_path_fallback_order : List DownloadStrategy :=
  [DownloadStrategy.api, DownloadStrategy.zip]

/-- `is_whole_repo_request` (validation.rs lines 69-71), also inlined at
manager.rs line 139. -/
def is_whole_repo_request (path : String) : Bool :=
  path = "" || path = "/"

/-- The `DownloadStrategy::Auto` arm of `download_github_path`
(manager.rs lines 83-225).  The three pipelines are external effects;
`res` gives the outcome each would produce when invoked, and `render`
is `anyhow`'s `Display` for pipeline errors.  Returns the list of
pipelines attempted, in order, together with the overall outcome; on
total failure the first error is the root cause and the later failures
are attached as one context message. -/
def download_github_path_auto {E : Type} (render : E → String)
    (git_available : Bool) (path : String)
    (res : DownloadStrategy → Except E Unit) :
    List DownloadStrategy × Except (AnyhowError E) Unit :=
  if git_available then
    match res DownloadStrategy.git with
    | .ok _ => ([DownloadStrategy.git], .ok ())
    | .error git_err =>
      match res DownloadStrategy.zip with
      | .ok _ => ([DownloadStrategy.git, DownloadStrategy.zip], .ok ())
      | .error zip_err =>
        match res DownloadStrategy.api with
        | .ok _ =>
          ([DownloadStrategy.git, DownloadStrategy.zip, DownloadStrategy.api],
            .ok ())
        | .error api_err =>
          ([DownloadStrategy.git, DownloadStrategy.zip, DownloadStrategy.api],
            .error (.withContext
              ("zip fallback failed: " ++ render zip_err ++
                "; REST API fallback also failed: " ++ render api_err)
              (.base git_err)))
  else if is_whole_repo_request path then
    match res DownloadStrategy.zip with
    | .ok _ => ([DownloadStrategy.zip], .ok ())
    | .error zip_err =>
      match res DownloadStrategy.api with
      | .ok _ => ([DownloadStrategy.zip, DownloadStrategy.api], .ok ())
      | .error api_err =>
        ([DownloadStrategy.zip, DownloadStrategy.api],
          .error (.withContext
            ("REST API fallback also failed: " ++ render api_err)
            (.base zip_err)))
  else
    match res DownloadStrategy.api with
    | .ok _ => ([DownloadStrategy.api], .ok ())
    | .error api_err =>
      match res DownloadStrategy.zip with
      | .ok _ => ([DownloadStrategy.api, DownloadStrategy.zip], .ok ())
      | .error zip_err =>
        ([DownloadStrategy.api, DownloadStrategy.zip],
          .error (.withContext
            ("zip fallback also failed: " ++ render zip_err)
            (.base api_err)))

/-- The fallback order the spec prescribes for `Auto`, assembled from the
validation.rs order functions. -/
def auto_order (git_available : Bool) (path : String) : List DownloadStrategy :=
  if git_available then git_available_fallback_order
  else if is_whole_repo_request path then no_git_whole_repo_fallback_order
  else no_git_specific_path_fallback_order

/-- Modelled from the spec: "a later strategy runs only if every earlier
one failed" — run the strategies of `order` left to right, stopping after
the first success. -/
def attemptsUntilSuccess {E : Type} (res : DownloadStrategy → Except E Unit) :
    List DownloadStrategy → List DownloadStrategy
  | [] => []
  | s :: rest =>
    match res s with
    | .ok _ => [s]
    | .error _ => s :: attemptsUntilSuccess res rest

end Manager

/-! ## File downloader (src/download/file.rs) -/

namespace FileDownload

/-- The status and body of a `reqwest` response as the downloader sees
them. -/
structure ServerResp where
  status : Nat
  body : List Nat
deriving Repr, DecidableEq

/-- `check_partial_download` (file.rs lines 166-222).  `existing` is the
target file's current content (`none` when absent).  Returns
`(start_byte, opened_for_append, file_after_probe)`: a partial file at
least as large as the known expected size is deleted (start fresh); a
non-empty partial below the expected size is opened for append with
`start_byte` equal to its length. -/
def check_partial_download (existing : Option (List Nat))
    (expected_size : Option Nat) : Nat × Bool × Option (List Nat) :=
  match existing with
  | none => (0, false, none)
  | some c =>
    let resume :=
      if c.length > 0 then (c.length, true, some c) else (0, false, some c)
    match expected_size with
    | some expected =>
      if expected ≤ c.length then (0, false, none) else resume
    | none => resume

/-- Bytes of an ASCII string. -/
def strBytes (s : String) : List Nat := s.toList.map Char.toNat

/-- The hashed preimage of `calculate_git_blob_sha1` (file.rs lines
146-152): `"blob <len>\0"` followed by the content. -/
def gitBlobPreimage (content : List Nat) : List Nat :=
  strBytes ("blob " ++ toString content.length) ++ [0] ++ content

/-- `calculate_git_blob_sha1` (file.rs lines 146-152).  The SHA-1
compression itself lives in the external `sha1` crate and is passed in as
`sha1`, a function from bytes to the lowercase hex digest. -/
def calculate_git_blob_sha1 (sha1 : List Nat → String) (content : List Nat) :
    String :=
  sha1 (gitBlobPreimage content)

/-- `verify_file_hash` (file.rs lines 154-164) on the file's content. -/
def verify_file_hash (sha1 : List Nat → String) (content : List Nat)
    (expected_sha : String) : Bool :=
  calculate_git_blob_sha1 sha1 content = expected_sha

/-- The bytes that `download_file` streams into the target file
(file.rs lines 28-128), before hash verification.  `server start` is the
response to the request with `Range: bytes=start-` (no `Range` when
`start = 0`).  A resume answered by anything but `206 Partial Content`
deletes the partial and re-requests the full body; otherwise a resume
appends to the partial and a fresh download truncates (`File::create`). -/
def streamed_content (item_size : Option Nat) (no_cache : Bool)
    (existing : Option (List Nat)) (server : Nat → ServerResp) : List Nat :=
  let probe :=
    if no_cache then (0, false, existing)
    else check_partial_download existing item_size
  let start_byte := probe.1
  let has_handle := probe.2.1
  let fs1 := probe.2.2
  let resp := server start_byte
  if start_byte > 0 ∧ resp.status ≠ 206 then (server 0).body
  else if has_handle then fs1.getD [] ++ resp.body
  else resp.body

/-- Final state of one `download_file` call: the returned result and the
target file's content (`none` when the file was removed). -/
structure DownloadOutcome where
  result : Except String Unit
  file : Option (List Nat)
deriving Repr

/-- `download_file` (file.rs lines 17-144): stream the body (with
resume handling), then, when the item carries a `sha`, verify the git
blob hash of the final file, deleting it and failing on mismatch. -/
def download_file (sha1 : List Nat → String) (item_sha : Option String)
    (item_size : Option Nat) (no_cache : Bool)
    (existing : Option (List Nat)) (server : Nat → ServerResp) :
    DownloadOutcome :=
  let content := streamed_content item_size no_cache existing server
  match item_sha with
  | some expected =>
    if verify_file_hash sha1 content expected then
      { result := .ok (), file := some content }
    else
      { result := .error "Hash verification failed: file may be corrupted"
        file := none }
  | none => { result := .ok (), file := some content }

end FileDownload

/-! ## Concrete inputs for counterexamples and witnesses -/

/-- Concrete headers: `Retry-After: 30`, no rate-limit headers. -/
def hdrsRetryOnly : RateLimit.Headers :=
  { RateLimit.Headers.empty with retry_after := some "30" }

/-- Headers for the spec's worked examples: status 403 with
`remaining: 0` and `reset: 1030`. -/
def hdrs403Reset : RateLimit.Headers :=
  { RateLimit.Headers.empty with
      x_ratelimit_remaining := some "0", x_ratelimit_reset := some "1030" }

/-- Headers with `remaining: 100` only. -/
def hdrs403Remaining : RateLimit.Headers :=
  { RateLimit.Headers.empty with x_ratelimit_remaining := some "100" }

/-- A concrete cache entry stored at epoch second 1000. -/
def entryAt1000 : Cache.CachedResponse :=
  { url := "https://api.github.com/repos/foo/bar/contents/src?ref=main"
    body := [123, 125], etag := some "W-abc", last_modified := none
    timestamp := 1000 }

/-- A response carrying neither an `ETag` nor a `Last-Modified`
validator. -/
def netNoValidators : Http.HttpResponse :=
  { body := [7], etag := none, last_modified := none }

/-- The URL of the spec's round-trip example, and its path segments as
the `url` crate reports them (the trailing slash yields a final empty
segment). -/
def urlEx : String := "https://github.com/foo/bar/tree/main/path/to/dir/"

def segsEx : List String :=
  ["foo", "bar", "tree", "main", "path", "to", "dir", ""]

/-- The `RequestInfo` that `parse_github_url` produces for `urlEx`. -/
def reqEx : Api.RequestInfo :=
  { owner := "foo", repo := "bar", branch := "main", path := "path/to/dir"
    has_trailing_slash := true, kind := Api.RequestKind.tree }

/-- Pipeline outcomes for the witness: both the REST API and the zip
pipeline fail, git succeeds (but git is unavailable). -/
def resEx : Manager.DownloadStrategy → Except String Unit
  | Manager.DownloadStrategy.api => Except.error "api down"
  | Manager.DownloadStrategy.zip => Except.error "zip down"
  | _ => Except.ok ()

/-- Payload for the resume witness. -/
def payloadEx : List Nat := [10, 20, 30]

/-- A server that answers a `Range: bytes=2-` request with
`206 Partial Content` and the payload tail, and a rangeless request with
`200` and the whole payload. -/
def serverEx : Nat → FileDownload.ServerResp := fun n =>
  if n = 2 then { status := 206, body := [30] }
  else { status := 200, body := payloadEx }

/-- The strings of the `Normal` components of a component list, in
order — what the sanitizing loop accumulates when it succeeds. -/
def normalStrings (cs : List Paths.PathComponent) : List String :=
  cs.filterMap (fun c =>
    match c with
    | Paths.PathComponent.normal s => some s
    | _ => none)

/-- C1 counterexample input: an item whose forge path is `"."` and whose
listed name is `".."`, sanitized against an empty base path. -/
def itemCex : Paths.ContentItem :=
  { name := [".."], path := ["."], content_type := Paths.ContentType.file }

/-- A regular file item under `dir/`, and a traversal item whose forge
path climbs out of the base. -/
def itemOkW : Paths.ContentItem :=
  { name := ["file.txt"], path := ["dir", "file.txt"]
    content_type := Paths.ContentType.file }

def itemTravW : Paths.ContentItem :=
  { name := ["evil.txt"], path := ["dir", "..", "evil.txt"]
    content_type := Paths.ContentType.file }

/-- A directory item, making the listing a non-single-file one. -/
def itemDirW : Paths.ContentItem :=
  { name := ["sub"], path := ["dir", "sub"]
    content_type := Paths.ContentType.dir }

/-! ## Theorems -/

theorem u64sub_of_le (a b : Nat) (hba : b ≤ a) (ha : a < U64) :
    u64sub a b = a - b := by
  have hb : b < U64 := lt_of_le_of_lt hba ha
  unfold u64sub
  rw [Nat.mod_eq_of_lt hb]
  have h1 : a + (U64 - b) = U64 + (a - b) := by omega
  rw [h1, Nat.add_mod_left, Nat.mod_eq_of_lt (by omega)]

section RateLimitClaims

open RateLimit

/-- C2 counterexample: on status 403 with the `x-ratelimit-remaining`
header missing and `Retry-After: 30` present, `backoff_duration` returns
`None`, not the 30-second Retry-After duration the claim requires. -/
theorem backoff_duration_403_missing_remaining_counterexample :
    RateLimit.parse_retry_after hdrsRetryOnly = some 30 ∧
    RateLimit.header_value_to_u64 hdrsRetryOnly.x_ratelimit_remaining = none ∧
    RateLimit.backoff_duration 403 hdrsRetryOnly 1000 = none := by
  refine ⟨?_, rfl, ?_⟩ <;> decide

/-- C2 (amended): `backoff_duration` returns, for status 429 with a
parsable `Retry-After` of `n` seconds, `some n`; for status 403 with
`remaining == 0`, the `Retry-After` duration if present, else
`reset_epoch - now + 1` seconds when `reset_epoch` is strictly in the
future and nothing otherwise; for status 403 with `remaining > 0` or with
the remaining header missing, `none`; and `none` for every other
status. -/
theorem backoff_duration_spec (status : Nat) (h : RateLimit.Headers)
    (now : Nat) :
    (status = 429 → ∀ n, RateLimit.parse_retry_after h = some n →
      RateLimit.backoff_duration status h now = some n)
    ∧ (status = 403 →
        RateLimit.header_value_to_u64 h.x_ratelimit_remaining = some 0 →
        ((∀ n, RateLimit.parse_retry_after h = some n →
            RateLimit.backoff_duration status h now = some n)
          ∧ (RateLimit.parse_retry_after h = none →
              ∀ r, RateLimit.header_value_to_u64 h.x_ratelimit_reset = some r →
                (now < r →
                  RateLimit.backoff_duration status h now = some (r - now + 1))
                ∧ (r ≤ now → RateLimit.backoff_duration status h now = none))))
    ∧ (status = 403 →
        ∀ r, RateLimit.header_value_to_u64 h.x_ratelimit_remaining = some r →
          0 < r → RateLimit.backoff_duration status h now = none)
    ∧ (status = 403 →
        RateLimit.header_value_to_u64 h.x_ratelimit_remaining = none →
        RateLimit.backoff_duration status h now = none)
    ∧ (status ≠ 429 → status ≠ 403 →
        RateLimit.backoff_duration status h now = none) := by
  refine ⟨?_, ?_, ?_, ?_, ?_⟩
  · rintro rfl n hra
    simp [backoff_duration, hra]
  · rintro rfl hrem
    refine ⟨?_, ?_⟩
    · intro n hra
      simp [backoff_duration, hrem, backoff_tail, hra]
    · intro hra r hreset
      refine ⟨?_, ?_⟩
      · intro hlt
        simp [backoff_duration, hrem, backoff_tail, hra, hreset, hlt]
      · intro hge
        simp [backoff_duration, hrem, backoff_tail, hra, hreset,
          Nat.not_lt.mpr hge]
  · rintro rfl r hrem hr
    simp [backoff_duration, hrem, Nat.pos_iff_ne_zero.mp hr, hr]
  · rintro rfl hrem
    simp [backoff_duration, hrem]
  · intro h429 h403
    simp [backoff_duration, h429, h403]

/-- Witness for `backoff_duration_spec` at the spec's worked examples:
`(429, Retry-After: 30)` gives 30 s; `(403, remaining: 0, reset: 1030)`
at `now = 1000` gives 31 s; `(403, remaining: 100)` and `(200, _)` give
no backoff. -/
theorem backoff_duration_spec_witness :
    RateLimit.backoff_duration 429 hdrsRetryOnly 1000 = some 30 ∧
    RateLimit.backoff_duration 403 hdrs403Reset 1000 = some 31 ∧
    RateLimit.backoff_duration 403 hdrs403Remaining 1000 = none ∧
    RateLimit.backoff_duration 200 RateLimit.Headers.empty 1000 = none := by
  refine ⟨?_, ?_, ?_, ?_⟩
  · exact (backoff_duration_spec 429 hdrsRetryOnly 1000).1 rfl 30 (by decide)
  · exact (((backoff_duration_spec 403 hdrs403Reset 1000).2.1 rfl
      (by decide)).2 (by decide) 1030 (by decide)).1 (by decide)
  · exact (backoff_duration_spec 403 hdrs403Remaining 1000).2.2.1 rfl 100
      (by decide) (by decide)
  · exact (backoff_duration_spec 200 RateLimit.Headers.empty 1000).2.2.2.2
      (by decide) (by decide)

end RateLimitClaims

section CacheClaims

/-- C4: `load_cached_response` returns the stored entry exactly when the
on-disk file exists, parses, and its age `now - timestamp` is at most the
TTL (age exactly TTL is still fresh); a missing file, unparsable JSON and
an expired entry each give `Ok(None)`, never an error. -/
theorem load_cached_response_spec (disk : Cache.CacheFileState)
    (now ttl : Nat) (c : Cache.CachedResponse)
    (hts : c.timestamp ≤ now) (hnow : now < U64) :
    (Cache.load_cached_response disk now ttl = .ok (some c) ↔
      disk = .entry c ∧ now - c.timestamp ≤ ttl)
    ∧ Cache.load_cached_response .missing now ttl = .ok none
    ∧ Cache.load_cached_response .corrupt now ttl = .ok none
    ∧ (ttl < now - c.timestamp →
        Cache.load_cached_response (.entry c) now ttl = .ok none) := by
  refine ⟨⟨?_, ?_⟩, rfl, rfl, ?_⟩
  · intro hload
    cases disk with
    | missing => simp [Cache.load_cached_response] at hload
    | unreadable => simp [Cache.load_cached_response] at hload
    | corrupt => simp [Cache.load_cached_response] at hload
    | entry c2 =>
      by_cases hage : u64sub now c2.timestamp > ttl
      · simp [Cache.load_cached_response, hage] at hload
      · simp [Cache.load_cached_response, hage] at hload
        have hc : c2 = c := hload
        constructor
        · rw [hc]
        · have hts2 : c2.timestamp ≤ now := by rw [hc]; exact hts
          rw [← hc, ← u64sub_of_le now c2.timestamp hts2 hnow]
          exact Nat.not_lt.mp hage
  · rintro ⟨rfl, hage⟩
    have : ¬ u64sub now c.timestamp > ttl := by
      rw [u64sub_of_le now c.timestamp hts hnow]
      exact Nat.not_lt.mpr hage
    simp [Cache.load_cached_response, this]
  · intro hexp
    have : u64sub now c.timestamp > ttl := by
      rw [u64sub_of_le now c.timestamp hts hnow]
      exact hexp
    simp [Cache.load_cached_response, this]

/-- Witness for `load_cached_response_spec`: with TTL 60 s, the entry
stored at 1000 is still used at 1060 (age exactly TTL) and ignored at
1061. -/
theorem load_cached_response_spec_witness :
    Cache.load_cached_response (.entry entryAt1000) 1060 60 =
      .ok (some entryAt1000) ∧
    Cache.load_cached_response (.entry entryAt1000) 1061 60 = .ok none := by
  constructor
  · exact ((load_cached_response_spec (.entry entryAt1000) 1060 60 entryAt1000
      (by decide) (by decide)).1).2 ⟨rfl, by decide⟩
  · exact (load_cached_response_spec (.entry entryAt1000) 1061 60 entryAt1000
      (by decide) (by decide)).2.2.2 (by decide)

end CacheClaims

section HttpClaims

/-- C3: with caching enabled, when the response cache holds a fresh,
parsable entry for the request URL, the cached wrapper returns exactly
that entry's body, issues no network request, and writes nothing. -/
theorem send_cached_uses_fresh_entry (url : String)
    (disk : Cache.CacheFileState) (now : Nat) (net : Http.HttpResponse)
    (c : Cache.CachedResponse)
    (hfresh : Cache.load_cached_response disk now Http.DEFAULT_CACHE_TTL_SECS =
      .ok (some c)) :
    Http.send_github_request_cached url false disk now net =
      { body := c.body, network_request_issued := false
        cache_write := none } := by
  simp [Http.send_github_request_cached, hfresh, Except.toOption, Option.join]

/-- Witness for `send_cached_uses_fresh_entry`: a 10-second-old entry
with the default 3600-second TTL is served with no network request. -/
theorem send_cached_uses_fresh_entry_witness :
    Http.send_github_request_cached entryAt1000.url false
        (.entry entryAt1000) 1010 netNoValidators =
      { body := entryAt1000.body, network_request_issued := false
        cache_write := none } :=
  send_cached_uses_fresh_entry entryAt1000.url (.entry entryAt1000) 1010
    netNoValidators entryAt1000 rfl

/-- C10: the cached wrapper writes a cache entry only when caching is
enabled and the response carries an `ETag` or `Last-Modified` validator;
a response with neither validator leaves the store unchanged, and a
subsequent identical request (same unchanged cache state, at the same or
a later instant) again issues a network request even with caching
enabled. -/
theorem send_cached_store_spec (url : String) (no_cache : Bool)
    (disk : Cache.CacheFileState) (now now2 : Nat) (net : Http.HttpResponse) :
    ((Http.send_github_request_cached url no_cache disk now net).cache_write
        ≠ none →
      no_cache = false ∧ (net.etag.isSome ∨ net.last_modified.isSome))
    ∧ (net.etag = none → net.last_modified = none →
        (Http.send_github_request_cached url no_cache disk now net).cache_write
          = none)
    ∧ (net.etag = none → net.last_modified = none →
        (∀ c, disk = .entry c → c.timestamp ≤ now ∧ now < U64) →
        now ≤ now2 → now2 < U64 →
        (Http.send_github_request_cached url false disk now
          net).network_request_issued = true →
        (Http.send_github_request_cached url false disk now2
          net).network_request_issued = true) := by
  refine ⟨?_, ?_, ?_⟩
  · intro hwrite
    by_cases hv : ¬no_cache = true ∧ (net.etag.isSome ∨ net.last_modified.isSome)
    · exact ⟨by simpa using hv.1, hv.2⟩
    · exfalso
      apply hwrite
      simp only [Http.send_github_request_cached]
      split
      · rfl
      · simp only [if_neg hv]
  · intro he hl
    simp only [Http.send_github_request_cached]
    split
    · rfl
    · have hv : ¬(¬no_cache = true ∧
          (net.etag.isSome ∨ net.last_modified.isSome)) := by
        simp [he, hl]
      simp only [if_neg hv]
  · intro he hl hdisk hle h2 hissued
    cases disk with
    | missing =>
      simp [Http.send_github_request_cached, Cache.load_cached_response,
        Except.toOption, Option.join]
    | unreadable =>
      simp [Http.send_github_request_cached, Cache.load_cached_response,
        Except.toOption, Option.join]
    | corrupt =>
      simp [Http.send_github_request_cached, Cache.load_cached_response,
        Except.toOption, Option.join]
    | entry c =>
      obtain ⟨hts, hnow⟩ := hdisk c rfl
      by_cases hage : u64sub now c.timestamp > Http.DEFAULT_CACHE_TTL_SECS
      · have hage2 : u64sub now2 c.timestamp > Http.DEFAULT_CACHE_TTL_SECS := by
          rw [u64sub_of_le now c.timestamp hts hnow] at hage
          rw [u64sub_of_le now2 c.timestamp (le_trans hts hle) h2]
          omega
        simp [Http.send_github_request_cached, Cache.load_cached_response,
          hage2, Except.toOption, Option.join]
      · exfalso
        simp [Http.send_github_request_cached, Cache.load_cached_response,
          hage, Except.toOption, Option.join] at hissued

/-- Witness for `send_cached_store_spec`: a validator-free response over
a missing cache file writes nothing, and the follow-up request five
seconds later again goes to the network. -/
theorem send_cached_store_spec_witness :
    (Http.send_github_request_cached "u" false .missing 0
      { body := [7], etag := none, last_modified := none }).cache_write = none
    ∧ (Http.send_github_request_cached "u" false .missing 5
      { body := [7], etag := none, last_modified := none
        }).network_request_issued = true := by
  constructor
  · exact (send_cached_store_spec "u" false .missing 0 5
      { body := [7], etag := none, last_modified := none }).2.1 rfl rfl
  · exact (send_cached_store_spec "u" false .missing 0 5
      { body := [7], etag := none, last_modified := none }).2.2 rfl rfl
      (fun c h => nomatch h) (by decide) (by decide) rfl

end HttpClaims

section ApiClaims

/-- C6: `parse_github_url` fails exactly when there are fewer than five
path segments or the tree/blob discriminator segment (`segments[2]`) is
neither `tree` nor `blob`; on success it returns owner, repo and branch
from segments 0, 1 and 3, the slash-trimmed join of the remaining
segments as the path, `has_trailing_slash` true iff the raw URL ends in
`'/'`, `tree` links parsed as `Tree`, `blob` links parsed as `Blob`, and
a `Blob` with empty path promoted to `Tree`. -/
theorem parse_github_url_spec (rawUrl : String) (segs : List String) :
    ((Api.parse_github_url rawUrl segs).isOk = true ↔
      (5 ≤ segs.length ∧
        (segs.getD 2 "" = "tree" ∨ segs.getD 2 "" = "blob")))
    ∧ (∀ r, Api.parse_github_url rawUrl segs = .ok r →
        r.owner = segs.getD 0 "" ∧ r.repo = segs.getD 1 "" ∧
        r.branch = segs.getD 3 "" ∧
        r.path = Api.trimChar '/' (String.intercalate "/" (segs.drop 4)) ∧
        r.has_trailing_slash = endsWithSlash rawUrl ∧
        (segs.getD 2 "" = "tree" → r.kind = Api.RequestKind.tree) ∧
        (segs.getD 2 "" = "blob" → r.path ≠ "" →
          r.kind = Api.RequestKind.blob) ∧
        (r.path = "" → r.kind = Api.RequestKind.tree)) := by
  constructor
  · simp only [Api.parse_github_url]
    by_cases hc : segs.length < 5 ∨
        (segs.getD 2 "" ≠ "tree" ∧ segs.getD 2 "" ≠ "blob")
    · rw [if_pos hc]
      constructor
      · intro h; exact absurd h (by simp [Except.isOk, Except.toBool])
      · rintro ⟨hlen, hd⟩
        rcases hc with hlen2 | ⟨ht, hb⟩
        · omega
        · rcases hd with h1 | h2
          · exact absurd h1 ht
          · exact absurd h2 hb
    · rw [if_neg hc]
      push_neg at hc
      refine ⟨fun _ => ⟨by omega, ?_⟩, fun _ => rfl⟩
      by_cases h1 : segs.getD 2 "" = "tree"
      · exact Or.inl h1
      · exact Or.inr (hc.2 h1)
  · intro r hr
    simp only [Api.parse_github_url] at hr
    by_cases hc : segs.length < 5 ∨
        (segs.getD 2 "" ≠ "tree" ∧ segs.getD 2 "" ≠ "blob")
    · rw [if_pos hc] at hr
      exact absurd hr (by simp)
    · rw [if_neg hc] at hr
      injection hr with hr
      subst hr
      refine ⟨rfl, rfl, rfl, rfl, rfl, ?_, ?_, ?_⟩
      · intro ht
        have ht2 : segs[2]?.getD "" = "tree" := by simpa [List.getD] using ht
        simp [List.getD, ht2]
      · intro hb hp
        have hb2 : segs[2]?.getD "" = "blob" := by simpa [List.getD] using hb
        have hbt : ¬(segs[2]?.getD "" = "tree") := by
          rw [hb2]
          intro hh
          exact absurd (congrArg String.data hh) (by decide)
        have hp2 : Api.trimChar '/' (String.intercalate "/" (segs.drop 4)) ≠
            "" := hp
        simp [List.getD, hbt, hp2]
      · intro hp
        have hp2 : Api.trimChar '/' (String.intercalate "/" (segs.drop 4)) =
            "" := hp
        by_cases h1 : segs[2]?.getD "" = "tree"
        · simp [List.getD, h1, hp2]
        · simp [List.getD, h1, hp2]

/-- Witness for `parse_github_url_spec` at the spec's round-trip example:
the parse succeeds, and the parsed record carries the example's fields. -/
theorem parse_github_url_spec_witness :
    (Api.parse_github_url urlEx segsEx).isOk = true ∧
    Api.parse_github_url urlEx segsEx = .ok reqEx ∧
    reqEx.kind = Api.RequestKind.tree ∧ reqEx.has_trailing_slash = true := by
  refine ⟨(parse_github_url_spec urlEx segsEx).1.mpr ⟨by decide, Or.inl rfl⟩,
    rfl, ?_, ?_⟩
  · exact ((parse_github_url_spec urlEx segsEx).2 reqEx rfl).2.2.2.2.2.1 rfl
  · exact (((parse_github_url_spec urlEx segsEx).2 reqEx rfl).2.2.2.2.1).trans
      (by decide)

end ApiClaims

section ManagerClaims

/-- C5: under the `Auto` strategy the attempted pipelines are exactly the
fixed validation.rs order for the situation — `[Git, Zip, Api]` when git
is available, `[Zip, Api]` without git for a whole-repo request, and
`[Api, Zip]` without git for a specific path — cut off after the first
success, so a later strategy runs only when every earlier one failed; the
call succeeds iff some attempted strategy succeeds; and when every
strategy fails the returned error wraps the first strategy's error (the
root cause) in a context message that carries each later failure. -/
theorem auto_fallback_spec {E : Type} (render : E → String) (gav : Bool)
    (path : String) (res : Manager.DownloadStrategy → Except E Unit) :
    (Manager.download_github_path_auto render gav path res).1 =
      Manager.attemptsUntilSuccess res (Manager.auto_order gav path)
    ∧ ((Manager.download_github_path_auto render gav path res).2.isOk = true ↔
        ∃ s ∈ Manager.auto_order gav path, (res s).isOk = true)
    ∧ ((∀ s ∈ Manager.auto_order gav path, (res s).isOk = false) →
        ∃ g msg,
          res ((Manager.auto_order gav path).headD
            Manager.DownloadStrategy.api) = .error g ∧
          (Manager.download_github_path_auto render gav path res).2 =
            .error (.withContext msg (.base g)) ∧
          ∀ s ∈ (Manager.auto_order gav path).tail, ∀ e, res s = .error e →
            ∃ a b, msg = a ++ render e ++ b) := by
  cases gav with
  | true =>
    cases hg : res Manager.DownloadStrategy.git with
    | ok u =>
      refine ⟨?_, ?_, ?_⟩
      · simp [Manager.download_github_path_auto, Manager.auto_order,
          Manager.git_available_fallback_order, Manager.attemptsUntilSuccess,
          hg]
      · simp [Manager.download_github_path_auto, Manager.auto_order,
          Manager.git_available_fallback_order, hg, Except.isOk, Except.toBool]
      · intro hall
        have := hall Manager.DownloadStrategy.git (by
          simp [Manager.auto_order, Manager.git_available_fallback_order])
        rw [hg] at this
        exact absurd this (by simp [Except.isOk, Except.toBool])
    | error g =>
      cases hz : res Manager.DownloadStrategy.zip with
      | ok u =>
        refine ⟨?_, ?_, ?_⟩
        · simp [Manager.download_github_path_auto, Manager.auto_order,
            Manager.git_available_fallback_order,
            Manager.attemptsUntilSuccess, hg, hz]
        · simp [Manager.download_github_path_auto, Manager.auto_order,
            Manager.git_available_fallback_order, hg, hz, Except.isOk, Except.toBool]
        · intro hall
          have := hall Manager.DownloadStrategy.zip (by
            simp [Manager.auto_order, Manager.git_available_fallback_order])
          rw [hz] at this
          exact absurd this (by simp [Except.isOk, Except.toBool])
      | error z =>
        cases ha : res Manager.DownloadStrategy.api with
        | ok u =>
          refine ⟨?_, ?_, ?_⟩
          · simp [Manager.download_github_path_auto, Manager.auto_order,
              Manager.git_available_fallback_order,
              Manager.attemptsUntilSuccess, hg, hz, ha]
          · simp [Manager.download_github_path_auto, Manager.auto_order,
              Manager.git_available_fallback_order, hg, hz, ha, Except.isOk, Except.toBool]
          · intro hall
            have := hall Manager.DownloadStrategy.api (by
              simp [Manager.auto_order, Manager.git_available_fallback_order])
            rw [ha] at this
            exact absurd this (by simp [Except.isOk, Except.toBool])
        | error a =>
          refine ⟨?_, ?_, ?_⟩
          · simp [Manager.download_github_path_auto, Manager.auto_order,
              Manager.git_available_fallback_order,
              Manager.attemptsUntilSuccess, hg, hz, ha]
          · simp [Manager.download_github_path_auto, Manager.auto_order,
              Manager.git_available_fallback_order, hg, hz, ha, Except.isOk, Except.toBool]
          · intro _
            refine ⟨g, "zip fallback failed: " ++ render z ++
              "; REST API fallback also failed: " ++ render a, ?_, ?_, ?_⟩
            · simpa [Manager.auto_order,
                Manager.git_available_fallback_order] using hg
            · simp [Manager.download_github_path_auto, hg, hz, ha]
            · intro s hs e he
              simp [Manager.auto_order,
                Manager.git_available_fallback_order] at hs
              rcases hs with rfl | rfl
              · rw [hz] at he
                injection he with he
                subst he
                exact ⟨"zip fallback failed: ",
                  "; REST API fallback also failed: " ++ render a,
                  String.append_assoc _ _ _⟩
              · rw [ha] at he
                injection he with he
                subst he
                exact ⟨"zip fallback failed: " ++ render z ++
                  "; REST API fallback also failed: ", "",
                  (String.append_empty _).symm⟩
  | false =>
    cases hwr : Manager.is_whole_repo_request path with
    | true =>
      cases hz : res Manager.DownloadStrategy.zip with
      | ok u =>
        refine ⟨?_, ?_, ?_⟩
        · simp [Manager.download_github_path_auto, Manager.auto_order,
            Manager.no_git_whole_repo_fallback_order,
            Manager.attemptsUntilSuccess, hwr, hz]
        · simp [Manager.download_github_path_auto, Manager.auto_order,
            Manager.no_git_whole_repo_fallback_order, hwr, hz, Except.isOk, Except.toBool]
        · intro hall
          have := hall Manager.DownloadStrategy.zip (by
            simp [Manager.auto_order, hwr,
              Manager.no_git_whole_repo_fallback_order])
          rw [hz] at this
          exact absurd this (by simp [Except.isOk, Except.toBool])
      | error z =>
        cases ha : res Manager.DownloadStrategy.api with
        | ok u =>
          refine ⟨?_, ?_, ?_⟩
          · simp [Manager.download_github_path_auto, Manager.auto_order,
              Manager.no_git_whole_repo_fallback_order,
              Manager.attemptsUntilSuccess, hwr, hz, ha]
          · simp [Manager.download_github_path_auto, Manager.auto_order,
              Manager.no_git_whole_repo_fallback_order, hwr, hz, ha,
              Except.isOk, Except.toBool]
          · intro hall
            have := hall Manager.DownloadStrategy.api (by
              simp [Manager.auto_order, hwr,
                Manager.no_git_whole_repo_fallback_order])
            rw [ha] at this
            exact absurd this (by simp [Except.isOk, Except.toBool])
        | error a =>
          refine ⟨?_, ?_, ?_⟩
          · simp [Manager.download_github_path_auto, Manager.auto_order,
              Manager.no_git_whole_repo_fallback_order,
              Manager.attemptsUntilSuccess, hwr, hz, ha]
          · simp [Manager.download_github_path_auto, Manager.auto_order,
              Manager.no_git_whole_repo_fallback_order, hwr, hz, ha,
              Except.isOk, Except.toBool]
          · intro _
            refine ⟨z, "REST API fallback also failed: " ++ render a,
              ?_, ?_, ?_⟩
            · simpa [Manager.auto_order, hwr,
                Manager.no_git_whole_repo_fallback_order] using hz
            · simp [Manager.download_github_path_auto, hwr, hz, ha]
            · intro s hs e he
              simp [Manager.auto_order, hwr,
                Manager.no_git_whole_repo_fallback_order] at hs
              subst hs
              rw [ha] at he
              injection he with he
              subst he
              exact ⟨"REST API fallback also failed: ", "",
                (String.append_empty _).symm⟩
    | false =>
      cases ha : res Manager.DownloadStrategy.api with
      | ok u =>
        refine ⟨?_, ?_, ?_⟩
        · simp [Manager.download_github_path_auto, Manager.auto_order,
            Manager.no_git_specific_path_fallback_order,
            Manager.attemptsUntilSuccess, hwr, ha]
        · simp [Manager.download_github_path_auto, Manager.auto_order,
            Manager.no_git_specific_path_fallback_order, hwr, ha,
            Except.isOk, Except.toBool]
        · intro hall
          have := hall Manager.DownloadStrategy.api (by
            simp [Manager.auto_order, hwr,
              Manager.no_git_specific_path_fallback_order])
          rw [ha] at this
          exact absurd this (by simp [Except.isOk, Except.toBool])
      | error a =>
        cases hz : res Manager.DownloadStrategy.zip with
        | ok u =>
          refine ⟨?_, ?_, ?_⟩
          · simp [Manager.download_github_path_auto, Manager.auto_order,
              Manager.no_git_specific_path_fallback_order,
              Manager.attemptsUntilSuccess, hwr, ha, hz]
          · simp [Manager.download_github_path_auto, Manager.auto_order,
              Manager.no_git_specific_path_fallback_order, hwr, ha, hz,
              Except.isOk, Except.toBool]
          · intro hall
            have := hall Manager.DownloadStrategy.zip (by
              simp [Manager.auto_order, hwr,
                Manager.no_git_specific_path_fallback_order])
            rw [hz] at this
            exact absurd this (by simp [Except.isOk, Except.toBool])
        | error z =>
          refine ⟨?_, ?_, ?_⟩
          · simp [Manager.download_github_path_auto, Manager.auto_order,
              Manager.no_git_specific_path_fallback_order,
              Manager.attemptsUntilSuccess, hwr, ha, hz]
          · simp [Manager.download_github_path_auto, Manager.auto_order,
              Manager.no_git_specific_path_fallback_order, hwr, ha, hz,
              Except.isOk, Except.toBool]
          · intro _
            refine ⟨a, "zip fallback also failed: " ++ render z, ?_, ?_, ?_⟩
            · simpa [Manager.auto_order, hwr,
                Manager.no_git_specific_path_fallback_order] using ha
            · simp [Manager.download_github_path_auto, hwr, ha, hz]
            · intro s hs e he
              simp [Manager.auto_order, hwr,
                Manager.no_git_specific_path_fallback_order] at hs
              subst hs
              rw [hz] at he
              injection he with he
              subst he
              exact ⟨"zip fallback also failed: ", "",
                (String.append_empty _).symm⟩

/-- Witness for `auto_fallback_spec`: no git, specific path `"src"`,
both remaining pipelines fail — the attempts are `[Api, Zip]` in that
order and the overall call fails. -/
theorem auto_fallback_spec_witness :
    (Manager.download_github_path_auto (fun e => e) false "src" resEx).1 =
      [Manager.DownloadStrategy.api, Manager.DownloadStrategy.zip] ∧
    (Manager.download_github_path_auto (fun e => e) false "src"
      resEx).2.isOk = false := by
  have h := auto_fallback_spec (fun e => e) false "src" resEx
  constructor
  · rw [h.1]
    rfl
  · have h3 := h.2.2 (by
      intro s hs
      simp [Manager.auto_order, Manager.is_whole_repo_request,
        Manager.no_git_specific_path_fallback_order] at hs
      rcases hs with rfl | rfl <;> rfl)
    obtain ⟨g, msg, _, herr, _⟩ := h3
    rw [herr]
    rfl

end ManagerClaims

section FileDownloadClaims

/-- C8: with caching enabled, a partial file at least as long as the
known expected size is deleted and the download restarts from byte 0; a
non-empty partial of size `s` below the expected size (or with no known
size) resumes by opening for append with `start_byte = s`, sending
`Range: bytes=s-`; a resume answered by `206 Partial Content` appends the
range body, a resume answered by anything else deletes the partial and
re-requests the full body from byte 0 — in both cases the final file is
the canonical payload. -/
theorem download_resume_spec (sha1 : List Nat → String) (p : List Nat)
    (s : Nat) (server : Nat → FileDownload.ServerResp) (exp : Option Nat)
    (hs : 0 < s) (hsp : s ≤ p.length)
    (hexp : exp = none ∨ ∃ e, exp = some e ∧ s < e) :
    (∀ c e, e ≤ List.length c →
      FileDownload.check_partial_download (some c) (some e) =
        (0, false, none)
      ∧ FileDownload.download_file sha1 none (some e) false (some c) server =
          { result := .ok (), file := some (server 0).body })
    ∧ FileDownload.check_partial_download (some (p.take s)) exp =
        (s, true, some (p.take s))
    ∧ (server s = { status := 206, body := p.drop s } →
        FileDownload.download_file sha1 none exp false (some (p.take s))
          server = { result := .ok (), file := some p })
    ∧ ((server s).status ≠ 206 → (server 0).body = p →
        FileDownload.download_file sha1 none exp false (some (p.take s))
          server = { result := .ok (), file := some p }) := by
  have hlen : (p.take s).length = s := by
    rw [List.length_take]
    omega
  have hcheck : FileDownload.check_partial_download (some (p.take s)) exp =
      (s, true, some (p.take s)) := by
    rcases hexp with rfl | ⟨e, rfl, he⟩
    · simp [FileDownload.check_partial_download, hlen, hs]
    · have hne : ¬ e ≤ (p.take s).length := by
        rw [hlen]
        omega
      simp [FileDownload.check_partial_download, hlen, hs, hne]
      omega
  refine ⟨?_, hcheck, ?_, ?_⟩
  · intro c e he
    refine ⟨by simp [FileDownload.check_partial_download, he], ?_⟩
    simp [FileDownload.download_file, FileDownload.streamed_content,
      FileDownload.check_partial_download, he]
  · intro h206
    simp [FileDownload.download_file, FileDownload.streamed_content, hcheck,
      h206, List.take_append_drop]
  · intro hst h0
    simp [FileDownload.download_file, FileDownload.streamed_content, hcheck,
      Nat.pos_iff_ne_zero.mp hs, hst, h0]

/-- Witness for `download_resume_spec` at `payloadEx` with a 2-byte
partial file: the probe resumes at byte 2, a `206` answer completes the
payload, and an oversized 1-byte partial against expected size 1 is
discarded and redownloaded in full. -/
theorem download_resume_spec_witness :
    FileDownload.check_partial_download (some [10, 20]) none =
      (2, true, some [10, 20]) ∧
    FileDownload.download_file (fun _ => "") none none false (some [10, 20])
      serverEx = { result := .ok (), file := some payloadEx } ∧
    FileDownload.download_file (fun _ => "") none (some 1) false (some [99])
      serverEx = { result := .ok (), file := some payloadEx } := by
  have h := download_resume_spec (fun _ => "") payloadEx 2 serverEx none
    (by decide) (by decide) (Or.inl rfl)
  refine ⟨?_, ?_, ?_⟩
  · have h2 := h.2.1
    simpa [payloadEx] using h2
  · have h3 := h.2.2.1 (by simp [serverEx, payloadEx])
    simpa [payloadEx] using h3
  · have h1 := (h.1 [99] 1 (by decide)).2
    rw [h1]
    simp [serverEx, payloadEx]

/-- C9: when the item carries a content hash, the downloader hashes
`"blob <size>\0" ++ content` over the final streamed file; on mismatch it
fails with a corrupt-payload error and removes the file, on match the
download succeeds with the file in place. -/
theorem download_hash_verification_spec (sha1 : List Nat → String)
    (expected : String) (item_size : Option Nat) (no_cache : Bool)
    (existing : Option (List Nat)) (server : Nat → FileDownload.ServerResp) :
    (sha1 (FileDownload.gitBlobPreimage
        (FileDownload.streamed_content item_size no_cache existing server)) =
          expected →
      FileDownload.download_file sha1 (some expected) item_size no_cache
          existing server =
        { result := .ok ()
          file := some (FileDownload.streamed_content item_size no_cache
            existing server) })
    ∧ (sha1 (FileDownload.gitBlobPreimage
        (FileDownload.streamed_content item_size no_cache existing server)) ≠
          expected →
      FileDownload.download_file sha1 (some expected) item_size no_cache
          existing server =
        { result := .error "Hash verification failed: file may be corrupted"
          file := none }) := by
  constructor
  · intro hmatch
    simp only [FileDownload.download_file]
    rw [if_pos]
    simp only [FileDownload.verify_file_hash,
      FileDownload.calculate_git_blob_sha1]
    exact decide_eq_true hmatch
  · intro hmiss
    simp only [FileDownload.download_file]
    rw [if_neg]
    simp only [FileDownload.verify_file_hash,
      FileDownload.calculate_git_blob_sha1]
    intro hc
    exact hmiss (of_decide_eq_true hc)

/-- Witness for `download_hash_verification_spec` with a constant hash
function returning `"h"`: expecting `"h"` succeeds and keeps the file,
expecting `"x"` fails with the corrupt-payload error and removes it. -/
theorem download_hash_verification_spec_witness :
    FileDownload.download_file (fun _ => "h") (some "h") none false none
        serverEx =
      { result := .ok (), file := some payloadEx } ∧
    FileDownload.download_file (fun _ => "h") (some "x") none false none
        serverEx =
      { result := .error "Hash verification failed: file may be corrupted"
        file := none } := by
  constructor
  · have h := (download_hash_verification_spec (fun _ => "h") "h" none false
      none serverEx).1 rfl
    simpa [FileDownload.streamed_content, serverEx, payloadEx] using h
  · exact (download_hash_verification_spec (fun _ => "h") "x" none false
      none serverEx).2 (by decide)

end FileDownloadClaims

section PathsClaims

theorem dropWhile_head_false (f : String → Bool) (l : List String)
    (x : String) (t : List String) (h : l.dropWhile f = x :: t) :
    f x = false := by
  induction l with
  | nil => simp at h
  | cons a rest ih =>
    rw [List.dropWhile_cons] at h
    split at h
    · exact ih h
    · next hf =>
      cases h
      simpa using hf

theorem trimSlashes_ne_empty_string (rp : List String) :
    Paths.trimSlashes rp ≠ [""] := by
  intro heq
  have hpre : Paths.trimSlashes rp <+:
      rp.dropWhile (fun s => s = "") := List.rdropWhile_prefix _ _
  rw [heq] at hpre
  obtain ⟨t, ht⟩ := hpre
  have hf := dropWhile_head_false (fun s => decide (s = "")) rp "" t ht.symm
  simp at hf

theorem sanitize_error_of_bad (cs : List Paths.PathComponent)
    (h : ∃ c ∈ cs, ¬(c = Paths.PathComponent.curDir ∨ c.isNormal = true)) :
    ∃ e, Paths.sanitizeComponents cs = .error e := by
  induction cs with
  | nil =>
    obtain ⟨c, hc, _⟩ := h
    simp at hc
  | cons a rest ih =>
    obtain ⟨c, hc, hbad⟩ := h
    rcases List.mem_cons.mp hc with rfl | hmem
    · cases c with
      | rootDir => exact ⟨_, rfl⟩
      | parentDir => exact ⟨_, rfl⟩
      | windowsDrive s => exact ⟨_, rfl⟩
      | curDir => exact absurd (Or.inl rfl) hbad
      | normal s => exact absurd (Or.inr rfl) hbad
    · cases a with
      | rootDir => exact ⟨_, rfl⟩
      | parentDir => exact ⟨_, rfl⟩
      | windowsDrive s => exact ⟨_, rfl⟩
      | curDir => exact ih ⟨c, hmem, hbad⟩
      | normal s =>
        obtain ⟨e, he⟩ := ih ⟨c, hmem, hbad⟩
        exact ⟨e, by simp [Paths.sanitizeComponents, he, Except.map]⟩

theorem sanitize_ok_of_good (cs : List Paths.PathComponent)
    (h : ∀ c ∈ cs, c = Paths.PathComponent.curDir ∨ c.isNormal = true) :
    Paths.sanitizeComponents cs = .ok (normalStrings cs) := by
  induction cs with
  | nil => rfl
  | cons a rest ih =>
    have ha := h a (List.mem_cons_self a rest)
    have hrest := ih (fun c hc => h c (List.mem_cons_of_mem a hc))
    cases a with
    | curDir => simpa [Paths.sanitizeComponents, normalStrings] using hrest
    | normal s =>
      simp [Paths.sanitizeComponents, normalStrings, hrest, Except.map]
    | rootDir => exact absurd ha (by simp [Paths.PathComponent.isNormal])
    | parentDir => exact absurd ha (by simp [Paths.PathComponent.isNormal])
    | windowsDrive s =>
      exact absurd ha (by simp [Paths.PathComponent.isNormal])

theorem convBody_normal_good (l : List String) (b : Bool)
    (hl : ∀ s ∈ l, s ≠ "") :
    ∀ s, Paths.PathComponent.normal s ∈ Paths.convBody b l →
      s ≠ "" ∧ s ≠ "." ∧ s ≠ ".." := by
  induction l generalizing b with
  | nil =>
    intro s hs
    simp [Paths.convBody] at hs
  | cons a rest ih =>
    intro s hs
    have hrest := fun s hmem =>
      ih false (fun x hx => hl x (List.mem_cons_of_mem a hx)) s hmem
    by_cases h1 : a = "."
    · simp only [Paths.convBody, if_pos h1] at hs
      rcases List.mem_append.mp hs with hleft | hright
      · cases b with
        | true => simp at hleft
        | false => simp at hleft
      · exact hrest s hright
    · by_cases h2 : a = ".."
      · simp only [Paths.convBody, if_neg h1, if_pos h2] at hs
        rcases List.mem_cons.mp hs with hx | hmem
        · exact absurd hx (by simp)
        · exact hrest s hmem
      · simp only [Paths.convBody, if_neg h1, if_neg h2] at hs
        rcases List.mem_cons.mp hs with hx | hmem
        · have hsa : s = a := by
            cases hx
            rfl
          rw [hsa]
          exact ⟨hl a (List.mem_cons_self a rest), h1, h2⟩
        · exact hrest s hmem

theorem segComponents_normal_good (segs : List String) :
    ∀ s, Paths.PathComponent.normal s ∈ Paths.segComponents segs →
      s ≠ "" ∧ s ≠ "." ∧ s ≠ ".." := by
  intro s hs
  unfold Paths.segComponents at hs
  split at hs
  · simp at hs
  · rcases List.mem_append.mp hs with hleft | hright
    · split at hleft <;> simp at hleft
    · exact convBody_normal_good (segs.filter (fun s => s ≠ "")) _
        (fun x hx => by simpa using (List.mem_filter.mp hx).2) s hright

theorem convBody_of_good (l : List String) (b : Bool)
    (h : ∀ s ∈ l, s ≠ "" ∧ s ≠ "." ∧ s ≠ "..") :
    Paths.convBody b l = l.map Paths.PathComponent.normal := by
  induction l generalizing b with
  | nil => simp [Paths.convBody]
  | cons a rest ih =>
    obtain ⟨_, h1, h2⟩ := h a (List.mem_cons_self a rest)
    simp only [Paths.convBody, if_neg h1, if_neg h2, List.map_cons]
    rw [ih false (fun x hx => h x (List.mem_cons_of_mem a hx))]

theorem segComponents_of_good (parts : List String) (hne : parts ≠ [])
    (h : ∀ s ∈ parts, s ≠ "" ∧ s ≠ "." ∧ s ≠ "..") :
    Paths.segComponents parts = parts.map Paths.PathComponent.normal := by
  have hnot : ¬(parts = [] ∨ parts = [""]) := by
    rintro (h1 | h1)
    · exact hne h1
    · exact (h "" (by rw [h1]; exact List.mem_singleton_self "")).1 rfl
  have habs : ¬(parts.head? = some "") := by
    intro hh
    cases parts with
    | nil => simp at hh
    | cons a t =>
      simp at hh
      exact (h a (List.mem_cons_self a t)).1 hh
  have hfilter : parts.filter (fun s => s ≠ "") = parts :=
    List.filter_eq_self.mpr (fun a ha => by simpa using (h a ha).1)
  simp only [Paths.segComponents]
  rw [if_neg hnot, hfilter, if_neg habs, List.nil_append]
  exact convBody_of_good parts _ h

theorem rebuilt_normal_good (base : List String) (item : Paths.ContentItem) :
    ∀ s, Paths.PathComponent.normal s ∈ Paths.rebuilt_relative base item →
      s ≠ "" ∧ s ≠ "." ∧ s ≠ ".." := by
  intro s hs
  by_cases hb : Paths.isEmptyPath base
  · by_cases hrel : Paths.segComponents item.path = []
    · simp [Paths.rebuilt_relative, hb, hrel] at hs
      exact segComponents_normal_good item.name s hs
    · simp [Paths.rebuilt_relative, hb, hrel] at hs
      exact segComponents_normal_good item.path s hs
  · by_cases hpre : (Paths.segComponents base).isPrefixOf
        (Paths.segComponents item.path)
    · by_cases hrel : (Paths.segComponents item.path).drop
          (Paths.segComponents base).length = []
      · simp [Paths.rebuilt_relative, hb, hpre, hrel] at hs
        exact segComponents_normal_good item.name s hs
      · simp [Paths.rebuilt_relative, hb, hpre, hrel] at hs
        exact segComponents_normal_good item.path s
          (List.drop_subset _ _ hs)
    · by_cases hrel : Paths.segComponents item.path = []
      · simp [Paths.rebuilt_relative, hb, hpre, hrel] at hs
        exact segComponents_normal_good item.name s hs
      · simp [Paths.rebuilt_relative, hb, hpre, hrel] at hs
        exact segComponents_normal_good item.path s hs

/-- C1 counterexample: for this input the rebuilt relative path consists
of `CurDir` alone — only Normal/CurDir components, so the claim requires
an `Ok` of Normal components — yet `relative_path` returns `Ok("..")`,
whose single component is `ParentDir`: the empty-result fallback pushes
the raw item name unsanitized (paths.rs lines 115-117). -/
theorem relative_path_counterexample :
    Paths.rebuilt_relative [""] itemCex = [Paths.PathComponent.curDir] ∧
    Paths.relative_path [""] itemCex = .ok [".."] ∧
    Paths.segComponents [".."] = [Paths.PathComponent.parentDir] :=
  ⟨rfl, rfl, rfl⟩

/-- C1 (amended): `relative_path` errors whenever the rebuilt relative
path contains a `ParentDir`, `RootDir` or host-specific drive component;
and whenever the rebuilt relative path consists only of `Normal` and
`CurDir` components **and contains at least one `Normal` component**, it
returns `Ok` with a non-empty path consisting solely of `Normal`
components (`CurDir` elided), so joining it under the output directory
stays lexically below the output root.  (When the rebuilt path has no
`Normal` component the code falls back to the raw item name, which the
counterexample shows can escape.) -/
theorem relative_path_spec (base : List String) (item : Paths.ContentItem) :
    ((∃ c ∈ Paths.rebuilt_relative base item,
        ¬(c = Paths.PathComponent.curDir ∨ c.isNormal = true)) →
      ∃ e, Paths.relative_path base item = .error e)
    ∧ ((∀ c ∈ Paths.rebuilt_relative base item,
          c = Paths.PathComponent.curDir ∨ c.isNormal = true) →
        (∃ s, Paths.PathComponent.normal s ∈
          Paths.rebuilt_relative base item) →
        ∃ r, Paths.relative_path base item = .ok r ∧ r ≠ [] ∧
          Paths.segComponents r = r.map Paths.PathComponent.normal) := by
  constructor
  · intro hbad
    obtain ⟨e, he⟩ := sanitize_error_of_bad _ hbad
    exact ⟨e, by simp [Paths.relative_path, he]⟩
  · intro hgood hex
    have hok := sanitize_ok_of_good _ hgood
    obtain ⟨s0, hs0⟩ := hex
    have hmem : s0 ∈ normalStrings (Paths.rebuilt_relative base item) :=
      List.mem_filterMap.mpr ⟨_, hs0, rfl⟩
    have hne : normalStrings (Paths.rebuilt_relative base item) ≠ [] :=
      List.ne_nil_of_mem hmem
    have hgoodstr : ∀ s ∈ normalStrings (Paths.rebuilt_relative base item),
        s ≠ "" ∧ s ≠ "." ∧ s ≠ ".." := by
      intro s hsmem
      obtain ⟨c, hc, hcs⟩ := List.mem_filterMap.mp hsmem
      cases c with
      | normal s2 =>
        have hss : s2 = s := by simpa using hcs
        subst hss
        exact rebuilt_normal_good base item s2 hc
      | rootDir => simp at hcs
      | curDir => simp at hcs
      | parentDir => simp at hcs
      | windowsDrive s2 => simp at hcs
    refine ⟨normalStrings (Paths.rebuilt_relative base item), ?_, hne, ?_⟩
    · unfold Paths.relative_path
      rw [hok]
      cases hns : normalStrings (Paths.rebuilt_relative base item) with
      | nil => exact absurd hns hne
      | cons a t => rfl
    · exact segComponents_of_good _ hne hgoodstr

/-- Witness for `relative_path_spec`: `dir/file.txt` under base `dir`
sanitizes successfully, and `dir/../evil.txt` under base `dir` is
rejected. -/
theorem relative_path_spec_witness :
    (Paths.relative_path ["dir"] itemOkW).isOk = true ∧
    (Paths.relative_path ["dir"] itemTravW).isOk = false := by
  constructor
  · obtain ⟨r, hr, -, -⟩ := (relative_path_spec ["dir"] itemOkW).2
      (by decide) ⟨"file.txt", by decide⟩
    rw [hr]
    rfl
  · obtain ⟨e, he⟩ := (relative_path_spec ["dir"] itemTravW).1
      ⟨Paths.PathComponent.parentDir, by decide, by decide⟩
    rw [he]
    rfl

theorem renderComponents_ne_nil (l : List Paths.PathComponent) :
    Paths.renderComponents l ≠ [] := by
  cases l with
  | nil => simp [Paths.renderComponents]
  | cons c rest =>
    cases c <;> cases rest <;> simp [Paths.renderComponents]

theorem normalize_base_render (l : List Paths.PathComponent) :
    Paths.normalize_base (Paths.renderComponents l) =
      Paths.renderComponents l := by
  unfold Paths.normalize_base
  by_cases h : Paths.isEmptyPath (Paths.renderComponents l) = true
  · rw [if_pos h]
    have hne := renderComponents_ne_nil l
    simp [Paths.isEmptyPath] at h
    rcases h with h | h
    · exact absurd h hne
    · rw [h]
  · rw [if_neg h]

theorem normalize_base_if_nil (t : List String) :
    Paths.normalize_base (if t = [] then [""] else t) =
      Paths.normalize_base t := by
  by_cases ht : t = []
  · rw [if_pos ht, ht]
    rfl
  · rw [if_neg ht]

/-- C7: the layout planner.  For a single-file listing, `base_path` is
the parent of the file's forge path and the default output directory is
`"."`.  For a directory listing, `base_path` is the slash-trimmed request
path; the default output directory is `"."` when the URL had a trailing
slash or the trimmed path is root, and otherwise the path's final
(`Normal`) component. -/
theorem determine_paths_spec (rp : List String) (trailing : Bool)
    (contents : List Paths.ContentItem) :
    (∀ f par, contents = [f] → f.content_type = Paths.ContentType.file →
      Paths.rustParent f.path = some par →
      Paths.determine_paths rp trailing contents = (par, ["."]))
    ∧ (Paths.isSingleFileListing contents = false →
        (trailing = true ∨ Paths.trimSlashes rp = []) →
        Paths.determine_paths rp trailing contents =
          (Paths.normalize_base (Paths.trimSlashes rp), ["."]))
    ∧ (Paths.isSingleFileListing contents = false → trailing = false →
        ∀ nm, Paths.rustFileName (Paths.trimSlashes rp) = some nm →
          Paths.determine_paths rp trailing contents =
            (Paths.trimSlashes rp, [nm])) := by
  refine ⟨?_, ?_, ?_⟩
  · intro f par hc hf hp
    subst hc
    have hsingle : Paths.isSingleFileListing [f] = true := by
      simp only [Paths.isSingleFileListing, hf]
      decide
    have hnorm : Paths.normalize_base par = par := by
      simp only [Paths.rustParent] at hp
      split at hp
      · exact absurd hp (by simp)
      · exact absurd hp (by simp)
      · exact absurd hp (by simp)
      · have hp2 := Option.some.inj hp
        rw [← hp2]
        exact normalize_base_render _
    simp [Paths.determine_paths, Paths.compute_base_and_default_output,
      hsingle, hp, hnorm]
  · intro hns hcase
    rcases hcase with htr | htrim
    · simp [Paths.determine_paths, Paths.compute_base_and_default_output,
        hns, htr, normalize_base_if_nil]
    · simp [Paths.determine_paths, Paths.compute_base_and_default_output,
        hns, htrim, Paths.isEmptyPath]
      decide
  · intro hns htr nm hnm
    have htne : Paths.trimSlashes rp ≠ [] := by
      intro h
      rw [h] at hnm
      simp [Paths.rustFileName, Paths.segComponents] at hnm
    have htne2 := trimSlashes_ne_empty_string rp
    have hemp : Paths.isEmptyPath (Paths.trimSlashes rp) = false := by
      simp [Paths.isEmptyPath, htne, htne2]
    simp [Paths.determine_paths, Paths.compute_base_and_default_output,
      hns, htr, if_neg htne, hemp, hnm, Paths.normalize_base]

/-- Witness for `determine_paths_spec` at the spec's examples: a
single-file listing for `dir/file.txt` gives `(dir, .)`; the tree request
`dir/sub` without trailing slash gives `(dir/sub, sub)`, and with a
trailing slash gives `(dir/sub, .)`. -/
theorem determine_paths_spec_witness :
    Paths.determine_paths ["dir", "file.txt"] false [itemOkW] =
      (["dir"], ["."]) ∧
    Paths.determine_paths ["dir", "sub"] false [itemDirW] =
      (["dir", "sub"], ["sub"]) ∧
    Paths.determine_paths ["dir", "sub"] true [itemDirW] =
      (["dir", "sub"], ["."]) := by
  refine ⟨?_, ?_, ?_⟩
  · exact (determine_paths_spec ["dir", "file.txt"] false [itemOkW]).1
      itemOkW ["dir"] rfl rfl rfl
  · exact (determine_paths_spec ["dir", "sub"] false [itemDirW]).2.2
      (by decide) rfl "sub" rfl
  · have h := (determine_paths_spec ["dir", "sub"] true [itemDirW]).2.1
      (by decide) (Or.inl rfl)
    simpa using h

end PathsClaims

end Gdl
